import Mathlib

/-!
# Verification of the Uranium settings core (UM/Settings)

Shallow embedding of the setting-container engine of the Uranium
repository: `ContainerStack`, `DefinitionContainer`, `SettingDefinition`
(files `UM/Settings/ContainerStack.py`, `UM/Settings/DefinitionContainer.py`,
`UM/Settings/SettingDefinition.py`).  Python dictionaries that preserve
insertion order (`collections.OrderedDict`, `dict`) are embedded as
association lists; Python `None` becomes `Option.none`; exceptions become
`Except` errors.  Collaborators whose code is not part of the repository
snapshot (the container registry, `SettingFunction`, the i18n catalog) are
modelled from the specification and marked as such in their doc comments.
-/

namespace Uranium

/-- A JSON value as produced by `json.loads` with `object_pairs_hook =
OrderedDict`: objects are association lists preserving key insertion order.
JSON numbers appearing in the definition documents handled by this core are
integer-valued, so the number case is embedded as `Int`. -/
inductive JValue where
  | null : JValue
  | bool (b : Bool) : JValue
  | int (n : Int) : JValue
  | str (s : String) : JValue
  | arr (elems : List JValue) : JValue
  | obj (fields : List (String × JValue)) : JValue

/-- Python `d[k]` / `k in d` lookup on an insertion-ordered dictionary
embedded as an association list (keys are unique in dictionaries produced by
`json.loads` or `configparser`, which reject duplicates). -/
def assocGet {α : Type} (d : List (String × α)) (k : String) : Option α :=
  match d with
  | [] => none
  | (k', v) :: rest => if k' = k then some v else assocGet rest k

/-- Python `d[k] = v` on an insertion-ordered dictionary: overwrite the value
in place when the key exists, append otherwise. -/
def assocSet {α : Type} (d : List (String × α)) (k : String) (v : α) :
    List (String × α) :=
  match d with
  | [] => [(k, v)]
  | (k', v') :: rest =>
    if k' = k then (k', v) :: rest else (k', v') :: assocSet rest k v

/-- Python list indexing: the effective position of index `i` into a list of
length `n`, counting from the end for negative `i`; `none` when `i` is out of
range (Python raises `IndexError`). -/
def pyIndex (n : Nat) (i : Int) : Option Nat :=
  let j : Int := if i < 0 then i + n else i
  if 0 ≤ j ∧ j < n then some j.toNat else none

/-- Python `l[i]` on a list. -/
def pyListGet {α : Type} (l : List α) (i : Int) : Option α :=
  match pyIndex l.length i with
  | some j => l.get? j
  | none => none

/-- Python `l[i] = x` on a list; `none` when the index is out of range. -/
def pyListSet {α : Type} (l : List α) (i : Int) (x : α) : Option (List α) :=
  match pyIndex l.length i with
  | some j => some (l.set j x)
  | none => none

/-- Python `del l[i]` on a list; `none` when the index is out of range. -/
def pyListDel {α : Type} (l : List α) (i : Int) : Option (List α) :=
  match pyIndex l.length i with
  | some j => some (l.eraseIdx j)
  | none => none

/-- Python `s.split(sep)` for a one-character separator, over the character
list: every occurrence of the separator cuts, and empty pieces are kept
(`"".split(",") == [""]`, `"a,b,".split(",") == ["a", "b", ""]`). -/
def pySplitChars (sep : Char) : List Char → List (List Char)
  | [] => [[]]
  | c :: rest =>
    if c = sep then [] :: pySplitChars sep rest
    else
      match pySplitChars sep rest with
      | [] => [[c]]
      | h :: t => (c :: h) :: t

/-- Python `s.split(sep)` on strings (one-character separator). -/
def pySplit (s : String) (sep : Char) : List String :=
  (pySplitChars sep s.data).map String.mk

/-- Python `s.lower()` as `ConfigParser`'s default `optionxform` applies it
to option names (which in this format are ASCII). -/
def pyLower (s : String) : String :=
  ⟨s.data.map Char.toLower⟩

/-!
## Container stack (`UM/Settings/ContainerStack.py`)

The stack's `_containers` list holds duck-typed container objects of which
the stack code uses `getValue`, `getId` and `getMetaData`
(`ContainerInterface`).  A container is embedded as that interface record.
-/

/-- A container as seen through `ContainerInterface`: the duck-typed surface
the stack code actually calls.  `getVal` embeds the container's `getValue`
(absent = Python `None`). -/
structure Container where
  cid : String
  metadata : List (String × String)
  getVal : String → Option JValue

/-- `ContainerStack` state: `_id`, `_name`, `_metadata`, `_containers`,
`_next_stack` (ContainerStack.py lines 29-36).  An inductive so that the
next-stack chain is finite, as any acyclic run-time configuration is. -/
inductive ContainerStack where
  | mk (stackId : String) (name : String) (metadata : List (String × String))
      (containers : List Container) (nextStack : Option ContainerStack)

namespace ContainerStack

def stackId : ContainerStack → String
  | .mk i _ _ _ _ => i

def name : ContainerStack → String
  | .mk _ n _ _ _ => n

def metadata : ContainerStack → List (String × String)
  | .mk _ _ m _ _ => m

def containers : ContainerStack → List Container
  | .mk _ _ _ c _ => c

def nextStack : ContainerStack → Option ContainerStack
  | .mk _ _ _ _ n => n

mutual

/-- `ContainerStack.getValue` (ContainerStack.py lines 82-91): scan
`_containers` in order and return the first value that is not `None`; when
none answers, delegate to `_next_stack` if set, else return `None`. -/
def getValue : ContainerStack → String → Option JValue
  | .mk _ _ _ containers next, key => getValueFrom containers next key
termination_by s _ => sizeOf s

/-- The `for container in self._containers` loop of `getValue`, with the
fall-through to `_next_stack` at the end of the loop. -/
def getValueFrom : List Container → Option ContainerStack → String → Option JValue
  | [], some ns, key => ns.getValue key
  | [], none, _ => none
  | c :: rest, next, key =>
    match c.getVal key with
    | some v => some v
    | none => getValueFrom rest next key
termination_by cs next _ => sizeOf cs + sizeOf next

end

/-- Replace the `_containers` field. -/
def withContainers : ContainerStack → List Container → ContainerStack
  | .mk i n m _ ns, cs => .mk i n m cs ns

/-- Set `_name` and `_id` (the two assignments of `deserialize`, lines
135-136). -/
def withNameId : ContainerStack → String → String → ContainerStack
  | .mk _ _ m cs ns, nm, i => .mk i nm m cs ns

/-- Replace `_metadata` (line 139). -/
def withMetadata : ContainerStack → List (String × String) → ContainerStack
  | .mk i n _ cs ns, m => .mk i n m cs ns

end ContainerStack

/-- The exceptions the embedded stack operations can raise. -/
inductive StackError where
  | indexError
  | invalidContainerStack
  | incorrectVersion
  | valueError
  | unknownContainerId
deriving DecidableEq

namespace ContainerStack

/-- `ContainerStack.getContainer` (lines 177-180): the sentinel `-1` raises
`IndexError`; any other index is plain Python list indexing, which raises
`IndexError` when out of range. -/
def getContainer (s : ContainerStack) (index : Int) : Except StackError Container :=
  if index = -1 then .error .indexError
  else
    match pyListGet s.containers index with
    | some c => .ok c
    | none => .error .indexError

/-- `ContainerStack.replaceContainer` (lines 224-229).  The sentinel `-1`
raises `IndexError`; then `self._containers[index] = container` follows
Python list-assignment semantics.  The source also rejects
`container == self`; a `Container` value of this embedding stands for a
container object distinct from the stack, for which that guard (reference
equality against the stack) never fires.  On error the state at raise time
(unchanged) is returned alongside the error. -/
def replaceContainer (s : ContainerStack) (index : Int) (container : Container) :
    Except (StackError × ContainerStack) ContainerStack :=
  if index = -1 then .error (.indexError, s)
  else
    match pyListSet s.containers index container with
    | some l => .ok (s.withContainers l)
    | none => .error (.indexError, s)

/-- `ContainerStack.removeContainer` (lines 236-242): `-1` raises
`IndexError`; otherwise `del self._containers[index]`, raising `IndexError`
when out of range (the `except TypeError` branch concerns non-integer
indices, which the typed embedding rules out). -/
def removeContainer (s : ContainerStack) (index : Int) :
    Except (StackError × ContainerStack) ContainerStack :=
  if index = -1 then .error (.indexError, s)
  else
    match pyListDel s.containers index with
    | some l => .ok (s.withContainers l)
    | none => .error (.indexError, s)

end ContainerStack

/-!
### Stack serialization (`serialize`/`deserialize`)

The INI text written by `configparser.ConfigParser` is embedded at the level
of its parsed content: a list of sections, each an insertion-ordered list of
(option, value) string pairs.  `ConfigParser` lowercases option names (its
default `optionxform`) both when options are assigned and when a document is
read; the embedding applies that normalization at both points.  The
text encoding/decoding of this structure by `parser.write`/`read_string` is
treated as the identity transport for the well-formed values this code
writes. -/
abbrev ConfigDoc := List (String × List (String × String))

/-- `ConfigParser`'s default `optionxform`, applied to every option name of a
parsed document. -/
def lowerOptions (doc : ConfigDoc) : ConfigDoc :=
  doc.map (fun sec => (sec.1, sec.2.map (fun kv => (pyLower kv.1, kv.2))))

/-- ASCII whitespace as Python `int(s)` strips it. -/
def isPySpace (c : Char) : Bool :=
  c == ' ' || c == '\t' || c == '\n' || c == '\r' || c == '\x0b' || c == '\x0c'

/-- The value of a non-empty all-digit character sequence; `none` otherwise. -/
def decDigitsToNat (cs : List Char) : Option Nat :=
  if cs ≠ [] ∧ cs.all Char.isDigit then
    some (cs.foldl (fun a c => 10 * a + (c.toNat - 48)) 0)
  else none

/-- Python `int(s)` as used by `SectionProxy.getint`: optional surrounding
whitespace, an optional sign, then decimal digits; `none` when the string is
not of that shape (Python raises `ValueError`). -/
def pyParseInt (s : String) : Option Int :=
  match ((s.data.dropWhile isPySpace).reverse.dropWhile isPySpace).reverse with
  | '-' :: ds => (decDigitsToNat ds).map (fun n => -(n : Int))
  | '+' :: ds => (decDigitsToNat ds).map (fun n => (n : Int))
  | ds => (decDigitsToNat ds).map (fun n => (n : Int))

/-- Modelled from the spec: the external `ContainerRegistry` (its module is
not part of the source snapshot; only its three finder calls appear in
`ContainerStack.deserialize`).  Per the spec, container ids are resolved "by
probing an external registry first for a definition container with that id,
then an instance container, then another stack — first non-empty match
wins". -/
structure ContainerRegistry where
  findDefinitionContainers : String → List Container
  findInstanceContainers : String → List Container
  findContainerStacks : String → List Container

/-- Resolution of one container id, exactly as the loop body of
`ContainerStack.deserialize` (lines 145-158) probes the registry: the head of
the first non-empty finder result among definition containers, instance
containers and container stacks. -/
def ContainerRegistry.resolve (reg : ContainerRegistry) (cid : String) :
    Option Container :=
  match reg.findDefinitionContainers cid with
  | d :: _ => some d
  | [] =>
    match reg.findInstanceContainers cid with
    | i :: _ => some i
    | [] =>
      match reg.findContainerStacks cid with
      | st :: _ => some st
      | [] => none

namespace ContainerStack

/-- `container_id_string` of `serialize` (lines 110-112): every container id
followed by a comma. -/
def joinContainerIds (cs : List Container) : String :=
  cs.foldl (fun acc c => acc ++ c.cid ++ ",") ""

/-- `ContainerStack.serialize` (lines 98-118): a `general` section with
`version`, `name`, `id` and the comma-joined `containers` list, and a
`metadata` section with every metadata entry (option names lowercased by
`ConfigParser` on assignment). -/
def serialize (s : ContainerStack) : ConfigDoc :=
  [("general",
      [("version", "2"), ("name", s.name), ("id", s.stackId),
       ("containers", joinContainerIds s.containers)]),
   ("metadata", s.metadata.map (fun kv => (pyLower kv.1, kv.2)))]

/-- The container-resolution loop of `deserialize` (lines 142-160): empty ids
are skipped; each other id probes the registry for a definition container,
then an instance container, then a stack; the first hit is appended to
`_containers`; an id with no hit raises, leaving the mutations made so far in
place. -/
def resolveContainers (reg : ContainerRegistry) :
    List String → ContainerStack → Except (StackError × ContainerStack) ContainerStack
  | [], s => .ok s
  | cid :: rest, s =>
    if cid = "" then resolveContainers reg rest s
    else
      match reg.resolve cid with
      | some c => resolveContainers reg rest (s.withContainers (s.containers ++ [c]))
      | none => .error (.unknownContainerId, s)

/-- `ContainerStack.deserialize` (lines 125-162).  Checks the `general`
section and its `version`/`name`/`id` options (`InvalidContainerStackError`),
then the integer version against `Version = 2` (`IncorrectVersionError`),
then assigns `_name` and `_id`, replaces `_metadata` when a `metadata`
section is present, and resolves the comma-separated container id list
through the registry.  An error carries the state at raise time: the checks
fail before any mutation, while a resolution failure happens after `_name`,
`_id`, `_metadata` and the previously resolved containers were written. -/
def deserialize (reg : ContainerRegistry) (s : ContainerStack) (doc : ConfigDoc) :
    Except (StackError × ContainerStack) ContainerStack :=
  let parser := lowerOptions doc
  match assocGet parser "general" with
  | none => .error (.invalidContainerStack, s)
  | some general =>
    match assocGet general "version", assocGet general "name", assocGet general "id" with
    | some vstr, some nm, some idv =>
      (match pyParseInt vstr with
       | none => .error (.valueError, s)
       | some v =>
         if v = 2 then
           let s1 := s.withNameId nm idv
           let s2 :=
             match assocGet parser "metadata" with
             | some md => s1.withMetadata md
             | none => s1
           resolveContainers reg (pySplit ((assocGet general "containers").getD "") ',') s2
         else .error (.incorrectVersion, s))
    | _, _, _ => .error (.invalidContainerStack, s)

end ContainerStack

/-- A freshly constructed `ContainerStack(stack_id)` (constructor, lines
29-36): `_name` starts as the id, with empty metadata, no containers and no
next stack. -/
def freshStack (stackId : String) : ContainerStack :=
  .mk stackId stackId [] [] none

/-!
## Setting definitions (`UM/Settings/SettingDefinition.py`)
-/

/-- `DefinitionPropertyType` (SettingDefinition.py lines 19-23). -/
inductive DefinitionPropertyType where
  | Any
  | String
  | TranslatedString
  | Function
deriving DecidableEq

/-- One entry of the supported-property table: value type plus the
`required` and `read_only` flags. -/
structure PropertyDefinition where
  type : DefinitionPropertyType
  required : Bool
  readOnly : Bool
deriving DecidableEq

/-- `SettingDefinition.__property_definitions` (lines 321-353), in class-dict
insertion order. -/
def propertyDefinitions : List (String × PropertyDefinition) :=
  [("label", ⟨.TranslatedString, true, true⟩),
   ("type", ⟨.String, true, true⟩),
   ("icon", ⟨.String, false, true⟩),
   ("unit", ⟨.String, false, true⟩),
   ("description", ⟨.TranslatedString, true, true⟩),
   ("warning_description", ⟨.TranslatedString, false, true⟩),
   ("error_description", ⟨.TranslatedString, false, true⟩),
   ("default_value", ⟨.Any, false, true⟩),
   ("value", ⟨.Function, false, false⟩),
   ("enabled", ⟨.Function, false, false⟩),
   ("minimum_value", ⟨.Function, false, false⟩),
   ("maximum_value", ⟨.Function, false, false⟩),
   ("minimum_value_warning", ⟨.Function, false, false⟩),
   ("maximum_value_warning", ⟨.Function, false, false⟩),
   ("options", ⟨.Any, false, true⟩),
   ("comments", ⟨.String, false, true⟩)]

/-- The keys of `SettingDefinition.__type_definitions` (lines 355-374). -/
def typeNames : List String :=
  ["int", "bool", "category", "str", "enum", "float", "polygon", "polygons",
   "vec3"]

/-- `SettingDefinition.getPropertyNames(type)` (lines 192-198): the names of
the supported properties of the given type, in table order. -/
def getPropertyNames (t : DefinitionPropertyType) : List String :=
  (propertyDefinitions.filter (fun e => e.2.type = t)).map Prod.fst

/-- Modelled from the spec: `SettingFunction` (its module is not in the
source snapshot; `SettingDefinition` passes expression text to its
constructor and `DefinitionContainer` calls `getUsedSettings`).  Per the
spec, a compiled function-expression knows the set of setting keys its text
references, "computed once at compile time by walking identifier
references"; `usedSettings` holds that set, produced by the expression
analyzer the deserializer is parameterized over. -/
structure SettingFunction where
  code : String
  usedSettings : List String
deriving DecidableEq

/-- Modelled from the spec: `RelationType` of the `SettingRelation` module
(not in the snapshot): `RequiresTarget | RequiredByTarget`. -/
inductive RelationType where
  | RequiresTarget
  | RequiredByTarget
deriving DecidableEq

/-- Modelled from the spec: a `SettingRelation` edge `{owner, target, kind,
viaProperty}`.  Owner and target, object references in the source, are
represented by their setting keys (unique within a container by the spec's
invariant). -/
structure SettingRelation where
  owner : String
  target : String
  relationType : RelationType
  role : String
deriving DecidableEq

/-- A value stored in `SettingDefinition.__property_values` (lines 308-315):
the raw parsed value (`Any` kind, and `TranslatedString` kind without a
catalog), a string (`String` kind, and translated strings), or a compiled
`SettingFunction` (`Function` kind). -/
inductive PropValue where
  | val (v : JValue)
  | str (s : String)
  | func (f : SettingFunction)

/-- `SettingDefinition` state: `_key`, `__property_values`, `_children`,
`_relations` (lines 51-63).  The container/parent back-references and the
i18n catalog are threaded as parameters where used. -/
inductive SettingDefinition where
  | mk (key : String) (propertyValues : List (String × PropValue))
      (children : List SettingDefinition) (relations : List SettingRelation)

namespace SettingDefinition

def key : SettingDefinition → String
  | .mk k _ _ _ => k

def propertyValues : SettingDefinition → List (String × PropValue)
  | .mk _ pv _ _ => pv

def children : SettingDefinition → List SettingDefinition
  | .mk _ _ cs _ => cs

def relations : SettingDefinition → List SettingRelation
  | .mk _ _ _ rs => rs

/-- `hasattr(definition, name)` for a schema property name: `__getattr__`
(lines 66-70) answers iff the name is among the stored property values (all
names asked for are in the schema table). -/
def hasProp (d : SettingDefinition) (name : String) : Bool :=
  (assocGet d.propertyValues name).isSome

end SettingDefinition

/-- Errors of the embedded definition-deserialization code. -/
inductive DefError where
  | invalidDefinition
  | incorrectVersion
  | missingRequired (settingKey : String) (propertyName : String)
  | valueError
  | attributeError
  | typeError
  | keyError
  | recursionError
  | ioError
deriving DecidableEq

/-- Quoting of `repr` for strings, single-quote style with the quote and the
backslash escaped (written with `\x27` for the quote character). -/
def pyQuote (s : String) : String :=
  "\x27" ++
    String.mk (s.data.flatMap
      (fun c => if c = '\x27' ∨ c = '\\' then ['\\', c] else [c])) ++
  "\x27"

mutual

/-- Python `repr` of a parsed-JSON value, as `str()` renders lists and
dictionaries.  Only reachable through `str(value)` applied to a non-scalar
value of a string-kind property; no claim of this development depends on the
exact rendering. -/
def pyRepr : JValue → String
  | .null => "None"
  | .bool true => "True"
  | .bool false => "False"
  | .int n => toString n
  | .str s => pyQuote s
  | .arr xs => "[" ++ pyReprSeq xs ++ "]"
  | .obj fs => "\x7b" ++ pyReprFields fs ++ "\x7d"

def pyReprSeq : List JValue → String
  | [] => ""
  | [x] => pyRepr x
  | x :: rest => pyRepr x ++ ", " ++ pyReprSeq rest

def pyReprFields : List (String × JValue) → String
  | [] => ""
  | [(k, v)] => pyQuote k ++ ": " ++ pyRepr v
  | (k, v) :: rest => pyQuote k ++ ": " ++ pyRepr v ++ ", " ++ pyReprFields rest

end

/-- Python `str(value)` on a parsed-JSON value: the string itself for
strings, `None`/`True`/`False` for null and booleans, decimal for integers,
`repr` rendering for lists and dictionaries. -/
def pyStr : JValue → String
  | .str s => s
  | v => pyRepr v

/-- The names of the schema-required properties
(`filter(lambda i: ...["required"], ...)` at line 317, in table order):
`label`, `type` and `description`. -/
def requiredPropertyNames : List String :=
  (propertyDefinitions.filter (fun e => e.2.required)).map Prod.fst

/-- The required-property check closing `_deserialize_dict` (lines 317-319):
the first schema-required property missing from the stored values raises an
`AttributeError` naming the setting key and the property. -/
def checkRequired (key : String) (values : List (String × PropValue)) :
    Except DefError Unit :=
  match (propertyDefinitions.filter (fun e => e.2.required)).find?
      (fun e => (assocGet values e.1).isNone) with
  | some e => .error (.missingRequired key e.1)
  | none => .ok ()

/-- The value stored for one recognized property (the kind dispatch of
`_deserialize_dict`, lines 308-315): `Any` keeps the raw value; `String`
stringifies; `TranslatedString` stringifies and translates when a catalog is
attached, else keeps the raw value; `Function` compiles the stringified text
into a `SettingFunction` (`extractUsed` standing for its expression
analyzer). -/
def storedPropValue (i18n : Option (String → String))
    (extractUsed : String → List String) (t : DefinitionPropertyType)
    (v : JValue) : PropValue :=
  match t with
  | .Any => .val v
  | .String => .str (pyStr v)
  | .TranslatedString =>
    match i18n with
    | some cat => .str (cat (pyStr v))
    | none => .val v
  | .Function => .func ⟨pyStr v, extractUsed (pyStr v)⟩

/-- Validity of a `type` property value (lines 304-306): it must be a key of
`__type_definitions` (a non-string value never equals one of those string
keys). -/
def isValidTypeValue (v : JValue) : Bool :=
  match v with
  | .str s => typeNames.contains s
  | _ => false

mutual

/-- `SettingDefinition.deserialize` (lines 123-128) for the structured case:
a dict goes to `_deserialize_dict`.  A non-dict value reaches
`json.loads(serialized)`, a `TypeError` for the non-string parsed values of
this embedding (the string sub-case, re-parsing embedded JSON text, occurs in
none of the documents this development reasons about and is mapped to the
same error). -/
def deserializeSetting (i18n : Option (String → String))
    (extractUsed : String → List String) (key : String) :
    JValue → Except DefError SettingDefinition
  | .obj fields => deserializeDict i18n extractUsed key fields
  | _ => .error .typeError
termination_by v => sizeOf v + 1

/-- `SettingDefinition._deserialize_dict` (lines 287-319): reset children and
relations, process every item of the document, then check the required
properties. -/
def deserializeDict (i18n : Option (String → String))
    (extractUsed : String → List String) (key : String)
    (fields : List (String × JValue)) : Except DefError SettingDefinition :=
  match processItems i18n extractUsed key [] [] fields with
  | .error e => .error e
  | .ok (values, children) =>
    match checkRequired key values with
    | .error e => .error e
    | .ok _ => .ok (.mk key values children [])
termination_by sizeOf fields + 1

/-- The `for key, value in serialized.items()` loop of `_deserialize_dict`
(lines 292-315), threading the accumulated property values (dict-update
semantics) and children: `children` recurses into child settings; an
unrecognized property is skipped with a warning; an unknown `type` value
raises `ValueError`; every other recognized property is stored per its
kind. -/
def processItems (i18n : Option (String → String))
    (extractUsed : String → List String) (key : String)
    (values : List (String × PropValue)) (children : List SettingDefinition) :
    List (String × JValue) →
      Except DefError (List (String × PropValue) × List SettingDefinition)
  | [] => .ok (values, children)
  | (k, v) :: rest =>
    if k = "children" then
      match v with
      | .obj childFields =>
        match deserializeChildren i18n extractUsed childFields with
        | .error e => .error e
        | .ok cs => processItems i18n extractUsed key values (children ++ cs) rest
      | _ => .error .attributeError
    else
      match assocGet propertyDefinitions k with
      | none => processItems i18n extractUsed key values children rest
      | some pd =>
        if k = "type" ∧ ¬ isValidTypeValue v then .error .valueError
        else
          processItems i18n extractUsed key
            (assocSet values k (storedPropValue i18n extractUsed pd.type v))
            children rest
termination_by fields => sizeOf fields

/-- The `for child_key, child_dict in value.items()` loop of
`_deserialize_dict` (lines 293-297): build and deserialize one child per
entry, in order. -/
def deserializeChildren (i18n : Option (String → String))
    (extractUsed : String → List String) :
    List (String × JValue) → Except DefError (List SettingDefinition)
  | [] => .ok []
  | (ck, cv) :: rest =>
    match deserializeSetting i18n extractUsed ck cv with
    | .error e => .error e
    | .ok c =>
      match deserializeChildren i18n extractUsed rest with
      | .error e => .error e
      | .ok cs => .ok (c :: cs)
termination_by fields => sizeOf fields

end

/-!
## Definition container (`UM/Settings/DefinitionContainer.py`)
-/

/-- Python `needle in hay` on strings: substring containment. -/
def isSubstringOf (needle hay : String) : Bool :=
  decide (needle.data <:+: hay.data)

/-- Python `key in v` for a parsed-JSON value `v`: key membership for a
dict, substring for a string, element equality for a list, `TypeError` for
the other values. -/
def pyContains (v : JValue) (key : String) : Except DefError Bool :=
  match v with
  | .obj fields => .ok (assocGet fields key).isSome
  | .str s => .ok (isSubstringOf key s)
  | .arr xs => .ok (xs.any (fun e => match e with | .str s => s = key | _ => false))
  | _ => .error .typeError

mutual

/-- `DefinitionContainer._findInDict` (lines 179-187), embedded with its
defect intact: when `key in dict` holds it returns the dictionary itself
(not the value at the key); otherwise it recurses into every value, discards
every recursive result (`result` stays `None`) and returns `None`.  The
recursion can only raise: `key in value` is a `TypeError` for numbers,
booleans and `None`, and a value that does not contain the key next fails on
`value.items()` (`AttributeError`) unless it is a dictionary. -/
def findInDict (d : JValue) (key : String) : Except DefError (Option JValue) :=
  match pyContains d key with
  | .error e => .error e
  | .ok true => .ok (some d)
  | .ok false =>
    match d with
    | .obj fields =>
      match findInDictValues fields key with
      | .error e => .error e
      | .ok _ => .ok none
    | _ => .error .attributeError

/-- The `for dict_key, value in dict.items()` loop of `_findInDict`. -/
def findInDictValues (fields : List (String × JValue)) (key : String) :
    Except DefError Unit :=
  match fields with
  | [] => .ok ()
  | (_, v) :: rest =>
    match findInDict v key with
    | .error e => .error e
    | .ok _ => findInDictValues rest key

end

/-- Python `d.update(other)` on dictionaries: shallow merge, overwriting in
place and appending new keys in order. -/
def pyDictUpdate (d upd : List (String × JValue)) : List (String × JValue) :=
  upd.foldl (fun acc kv => assocSet acc kv.1 kv.2) d

/-- The override-application loop of `DefinitionContainer.deserialize`
(lines 109-112): for each override entry, `_findInDict` searches the
settings document for the key and `setting.update(value)` shallow-merges the
override fields into whatever object came back.  When `_findInDict` finds
the key at the top level it returns the settings dictionary itself, so the
update lands on the settings mapping, not on the sub-document at the key;
when it returns `None`, `None.update(...)` raises `AttributeError`; a
non-dict result or a non-dict override value also raises. -/
def applyOverrides (settings : JValue) :
    List (String × JValue) → Except DefError JValue
  | [] => .ok settings
  | (key, value) :: rest =>
    match findInDict settings key with
    | .error e => .error e
    | .ok none => .error .attributeError
    | .ok (some found) =>
      match found, value with
      | .obj fields, .obj upd =>
        -- the object `_findInDict` returns from the top-level call is the
        -- settings dictionary itself, so the mutation rebinds `settings`
        applyOverrides (.obj (pyDictUpdate fields upd)) rest
      | .obj _, _ => .error .typeError
      | _, _ => .error .attributeError

mutual

/-- `DefinitionContainer._mergeDicts` (lines 190-201): deep-copy the first
dictionary, then fold the second over it, recursing where the second holds a
dictionary at an existing key and overwriting otherwise.  The recursive call
can receive a non-dictionary first argument (derived maps a key to a dict
where the base holds a scalar); the source then fails inside membership or
item assignment on that scalar, embedded as `typeError` (no claim exercises
that branch). -/
def mergeDicts (first second : JValue) : Except DefError JValue :=
  match second with
  | .obj secondFields =>
    match first with
    | .obj firstFields =>
      match mergeFields firstFields secondFields with
      | .error e => .error e
      | .ok merged => .ok (.obj merged)
    | _ => .error .typeError
  | _ => .error .attributeError
termination_by sizeOf second

/-- The `for key, value in second.items()` loop of `_mergeDicts`. -/
def mergeFields (result : List (String × JValue)) :
    List (String × JValue) → Except DefError (List (String × JValue))
  | [] => .ok result
  | (k, v) :: rest =>
    match assocGet result k, v with
    | some existing, .obj vo =>
      match mergeDicts existing (.obj vo) with
      | .error e => .error e
      | .ok merged => mergeFields (assocSet result k merged) rest
    | _, _ => mergeFields (assocSet result k v) rest
termination_by fields => sizeOf fields

end

/-- `DefinitionContainer` state: `_id`, `_name`, `_metadata`, `_definitions`,
`_i18n_catalog` (lines 34-41).  `_name` and `_metadata` hold whatever parsed
values `deserialize` assigns. -/
structure DefinitionContainer where
  cid : String
  name : JValue
  metadata : JValue
  definitions : List SettingDefinition
  i18n : Option (String → String)

/-- A freshly constructed `DefinitionContainer(container_id)`: name is the
id, empty metadata, no definitions. -/
def freshDefinitionContainer (cid : String)
    (i18n : Option (String → String)) : DefinitionContainer :=
  ⟨cid, .str cid, .obj [], [], i18n⟩

mutual

/-- `SettingDefinition.findDefinitions(key=k)` (lines 149-166) specialized to
the `key` criterion the container code uses: depth-first, the node itself
first, then its children in order; a node matches when its `_key` (the `key`
property) equals the requested key. -/
def SettingDefinition.findByKey (d : SettingDefinition) (key : String) :
    List SettingDefinition :=
  match d with
  | .mk k pv cs rs =>
    (if k = key then [SettingDefinition.mk k pv cs rs] else []) ++
      findByKeyInList cs key
termination_by sizeOf d

/-- `findDefinitions` extended over a list of definitions in order (the
children loop of `SettingDefinition.findDefinitions` and the root loop of
`DefinitionContainer.findDefinitions`, lines 136-141). -/
def findByKeyInList (ds : List SettingDefinition) (key : String) :
    List SettingDefinition :=
  match ds with
  | [] => []
  | d :: rest => d.findByKey key ++ findByKeyInList rest key
termination_by sizeOf ds

end

/-- `DefinitionContainer.findDefinitions(key=k)` (lines 136-141). -/
def DefinitionContainer.findDefinitionsByKey (c : DefinitionContainer)
    (key : String) : List SettingDefinition :=
  findByKeyInList c.definitions key

/-- `DefinitionContainer.getValue` (lines 83-88): the `default_value`
property of the first definition matching the key, or `None` when no
definition matches.  The property read `definitions[0].default_value` goes
through `SettingDefinition.__getattr__` (SettingDefinition.py lines 66-70),
which raises `AttributeError` when the matching definition stores no
`default_value`. -/
def DefinitionContainer.getValue (c : DefinitionContainer) (key : String) :
    Except DefError (Option PropValue) :=
  match c.findDefinitionsByKey key with
  | [] => .ok none
  | d :: _ =>
    match assocGet d.propertyValues "default_value" with
    | some pv => .ok (some pv)
    | none => .error .attributeError

/-- Python `json["version"] != self.Version` with `Version = 2`: among
parsed-JSON values only the integer `2` equals the constant. -/
def isPyIntTwo (v : JValue) : Bool :=
  match v with
  | .int n => n = 2
  | _ => false

/-- `DefinitionContainer._verifyJson` (lines 168-176): `version` present,
`name` present, `version == 2`, in that order. -/
def verifyJson (parsed : List (String × JValue)) : Except DefError Unit :=
  match assocGet parsed "version" with
  | none => .error .invalidDefinition
  | some v =>
    match assocGet parsed "name" with
    | none => .error .invalidDefinition
    | some _ => if isPyIntTwo v then .ok () else .error .incorrectVersion

/-- `DefinitionContainer._resolveInheritance` (lines 154-165), with
`_loadFile` (lines 146-151) modelled as the `loadFile` parameter (the
`Resources` locator is not part of the snapshot; a failed lookup or read
raises, embedded as `ioError`).  The recursion depth is bounded by `fuel`,
standing for Python's recursion limit on a cyclic `inherits` chain. -/
def resolveInheritance (loadFile : String → Option (List (String × JValue))) :
    Nat → String → Except DefError (List (String × JValue))
  | 0, _ => .error .recursionError
  | fuel + 1, fileName =>
    match loadFile fileName with
    | none => .error .ioError
    | some json =>
      match verifyJson json with
      | .error e => .error e
      | .ok _ =>
        match assocGet json "inherits" with
        | none => .ok json
        | some (.str inh) =>
          match resolveInheritance loadFile fuel inh with
          | .error e => .error e
          | .ok inherited =>
            match mergeDicts (.obj inherited) (.obj json) with
            | .ok (.obj merged) => .ok merged
            | .ok _ => .error .typeError
            | .error e => .error e
        | some _ => .error .typeError

/-- The `for key, value in parsed["settings"].items()` loop of
`DefinitionContainer.deserialize` (lines 125-128): build and deserialize a
root `SettingDefinition` per entry, appending to `_definitions`; a failure
leaves the definitions appended so far in place. -/
def deserializeRootSettings (i18n : Option (String → String))
    (extractUsed : String → List String)
    (acc : List SettingDefinition) :
    List (String × JValue) →
      Except (DefError × List SettingDefinition) (List SettingDefinition)
  | [] => .ok acc
  | (k, v) :: rest =>
    match deserializeSetting i18n extractUsed k v with
    | .error e => .error (e, acc)
    | .ok d => deserializeRootSettings i18n extractUsed (acc ++ [d]) rest

/-!
### Relation building (`_updateRelations` / `_processFunction`)

The source mutates `relations` lists of definition objects in place, finding
the target object through `findDefinitions(key=...)`.  The embedding
addresses the mutated node the same way: by its key, appending to the first
depth-first match — the object `findDefinitions` returns.  The traversal
reads keys, property values and children, which relation mutation never
changes, so reading them from the pre-traversal nodes is exact.
-/

mutual

/-- Append a relation to the relations list of the first depth-first match of
`key` inside one definition tree; the flag reports whether the match was
found. -/
def addRelTree (d : SettingDefinition) (key : String) (r : SettingRelation) :
    SettingDefinition × Bool :=
  match d with
  | .mk k pv cs rs =>
    if k = key then (.mk k pv cs (rs ++ [r]), true)
    else
      match addRelInList cs key r with
      | (cs', found) => (.mk k pv cs' rs, found)
termination_by sizeOf d

/-- `addRelTree` over a list of trees, stopping at the first match. -/
def addRelInList (ds : List SettingDefinition) (key : String)
    (r : SettingRelation) : List SettingDefinition × Bool :=
  match ds with
  | [] => ([], false)
  | d :: rest =>
    match addRelTree d key r with
    | (d', true) => (d' :: rest, true)
    | (d', false) =>
      match addRelInList rest key r with
      | (rest', found) => (d' :: rest', found)
termination_by sizeOf ds

end

/-- Append a relation to the first depth-first match of `key` in the
forest. -/
def addRelForest (f : List SettingDefinition) (key : String)
    (r : SettingRelation) : List SettingDefinition :=
  (addRelInList f key r).1

/-- `DefinitionContainer._processFunction` (lines 213-227): for every setting
key the compiled function references, find its definition in the live forest
(a miss is logged and skipped), then append a `RequiresTarget` relation to
the referencing definition and a `RequiredByTarget` relation to the
referenced one, both tagged with the property name. -/
def processFunction (f : List SettingDefinition) (defKey : String)
    (props : List (String × PropValue)) (property : String) :
    List SettingDefinition :=
  match assocGet props property with
  | some (.func fn) =>
    fn.usedSettings.foldl
      (fun f setting =>
        match findByKeyInList f setting with
        | [] => f
        | other :: _ =>
          let f1 := addRelForest f defKey
            ⟨defKey, other.key, .RequiresTarget, property⟩
          addRelForest f1 other.key
            ⟨other.key, defKey, .RequiredByTarget, property⟩) f
  | _ => f

mutual

/-- `DefinitionContainer._updateRelations` (lines 204-210) on one
definition: process every function-typed supported property present on the
definition, then recurse into its children. -/
def updateRelationsVisit (d : SettingDefinition)
    (f : List SettingDefinition) : List SettingDefinition :=
  match d with
  | .mk k pv cs _ =>
    updateRelationsVisitList cs
      ((getPropertyNames .Function).foldl
        (fun f p =>
          if (assocGet pv p).isSome then processFunction f k pv p else f) f)
termination_by sizeOf d

/-- `_updateRelations` over a list of definitions in order. -/
def updateRelationsVisitList (ds : List SettingDefinition)
    (f : List SettingDefinition) : List SettingDefinition :=
  match ds with
  | [] => f
  | d :: rest => updateRelationsVisitList rest (updateRelationsVisit d f)
termination_by sizeOf ds

end

/-- The relation-building pass closing `DefinitionContainer.deserialize`
(lines 130-131): `_updateRelations` over every root definition. -/
def updateRelations (f : List SettingDefinition) : List SettingDefinition :=
  updateRelationsVisitList f f

/-- `DefinitionContainer.deserialize` (lines 99-131) on a parsed document:
verify, resolve `inherits`, apply `overrides` (through the defective
`_findInDict`), require `metadata` and `settings`, assign name and metadata,
build the root definitions, then build relations.  An error carries the
container state at raise time; every failure up to the `settings` loop
happens before any container mutation. -/
def DefinitionContainer.deserialize
    (loadFile : String → Option (List (String × JValue)))
    (extractUsed : String → List String) (fuel : Nat)
    (c : DefinitionContainer) (parsed : List (String × JValue)) :
    Except (DefError × DefinitionContainer) DefinitionContainer :=
  match verifyJson parsed with
  | .error e => .error (e, c)
  | .ok _ =>
    let inheritedStep : Except DefError (List (String × JValue)) :=
      match assocGet parsed "inherits" with
      | none => .ok parsed
      | some (.str inh) =>
        match resolveInheritance loadFile fuel inh with
        | .error e => .error e
        | .ok inherited =>
          match mergeDicts (.obj inherited) (.obj parsed) with
          | .ok (.obj merged) => .ok merged
          | .ok _ => .error .typeError
          | .error e => .error e
      | some _ => .error .typeError
    match inheritedStep with
    | .error e => .error (e, c)
    | .ok parsed1 =>
      let overrideStep : Except DefError (List (String × JValue)) :=
        match assocGet parsed1 "overrides" with
        | none => .ok parsed1
        | some (.obj ovr) =>
          match assocGet parsed1 "settings" with
          | none => .error .keyError
          | some settings =>
            match applyOverrides settings ovr with
            | .error e => .error e
            | .ok settings' => .ok (assocSet parsed1 "settings" settings')
        | some _ => .error .attributeError
      match overrideStep with
      | .error e => .error (e, c)
      | .ok parsed2 =>
        if (assocGet parsed2 "metadata").isNone then
          .error (.invalidDefinition, c)
        else if (assocGet parsed2 "settings").isNone then
          .error (.invalidDefinition, c)
        else
          let nameVal := (assocGet parsed2 "name").getD .null
          let mdVal := (assocGet parsed2 "metadata").getD .null
          let c1 : DefinitionContainer :=
            ⟨c.cid, nameVal, mdVal, c.definitions, c.i18n⟩
          match (assocGet parsed2 "settings").getD .null with
          | .obj settingsFields =>
            match deserializeRootSettings c.i18n extractUsed c1.definitions
                settingsFields with
            | .error (e, defs) =>
              .error (e, ⟨c1.cid, c1.name, c1.metadata, defs, c1.i18n⟩)
            | .ok defs =>
              .ok ⟨c1.cid, c1.name, c1.metadata, updateRelations defs, c1.i18n⟩
          | _ => .error (.attributeError, c1)

/-!
### Observation helpers for the relation-building pass

Spec-side notions used to state what `_updateRelations` builds: the relation
list of the definition a key denotes (the object `findDefinitions` returns),
whether a key resolves, and the traversal-ordered stream of
(owner key, property, used setting) references the pass processes.
-/

/-- The relations of the first depth-first definition matching `key` (the
object `findDefinitions(key=...)` returns); `[]` when no definition
matches. -/
def relationsOfKey (f : List SettingDefinition) (k : String) :
    List SettingRelation :=
  match findByKeyInList f k with
  | [] => []
  | d :: _ => d.relations

/-- Whether a key resolves to a definition of the forest. -/
def resolvable (f : List SettingDefinition) (s : String) : Bool :=
  !(findByKeyInList f s).isEmpty

/-- The references one function-typed property contributes: one
(owner, property, used setting) triple per used setting, in order; nothing
when the property is absent or holds no compiled function. -/
def eventsOfFunc (pv : List (String × PropValue)) (p : String)
    (owner : String) : List (String × String × String) :=
  match assocGet pv p with
  | some (.func fn) => fn.usedSettings.map (fun s => (owner, p, s))
  | _ => []

/-- The references one definition's own properties contribute, in the order
`_updateRelations` iterates the function-typed property names. -/
def eventsOfProps (owner : String) (pv : List (String × PropValue)) :
    List (String × String × String) :=
  (getPropertyNames .Function).flatMap
    (fun p => if (assocGet pv p).isSome then eventsOfFunc pv p owner else [])

mutual

/-- The references the `_updateRelations` traversal of one definition
processes, in traversal order: its own properties first, then its children
depth-first. -/
def eventsVisit (d : SettingDefinition) : List (String × String × String) :=
  match d with
  | .mk k pv cs _ => eventsOfProps k pv ++ eventsVisitList cs
termination_by sizeOf d

/-- `eventsVisit` over a list of definitions in order. -/
def eventsVisitList (ds : List SettingDefinition) :
    List (String × String × String) :=
  match ds with
  | [] => []
  | d :: rest => eventsVisit d ++ eventsVisitList rest
termination_by sizeOf ds

end

/-- The relations one processed reference (owner `d`, property `p`, used
setting `s`) appends to the definition `k` denotes: nothing when `s` does not
resolve (the reference is skipped with a warning); otherwise a
`RequiresTarget` edge on the owner and a `RequiredByTarget` edge on the
referenced definition, both tagged with the property name. -/
def eventRel (res : String → Bool) (k : String) :
    String × String × String → List SettingRelation
  | (d, p, s) =>
    if res s then
      (if k = d ∧ res d then [⟨d, s, .RequiresTarget, p⟩] else []) ++
        (if k = s then [⟨s, d, .RequiredByTarget, p⟩] else [])
    else []

/-- Append a relation to the first of a list of relation lists (how one
`addRelForest` step shows up on depth-first search results). -/
def headAppend : List (List SettingRelation) → SettingRelation →
    List (List SettingRelation)
  | [], _ => []
  | rs :: rest, r => (rs ++ [r]) :: rest

/-!
### Concrete sample values used by witness theorems
-/

/-- A sample container answering no key. -/
def contA : Container := ⟨"a", [], fun _ => none⟩

/-- A second sample container answering no key. -/
def contB : Container := ⟨"b", [], fun _ => none⟩

/-- A sample stack holding two containers. -/
def stack2 : ContainerStack := .mk "stack" "stack" [] [contA, contB] none

/-- A sample stack holding two containers and one metadata entry. -/
def stack2m : ContainerStack := .mk "stack" "stack" [("x", "1")] [contA, contB] none

/-- A sample registry resolving `"a"` and `"b"` as definition containers and
nothing else. -/
def regAB : ContainerRegistry :=
  ⟨fun cid => if cid = "a" then [contA] else if cid = "b" then [contB] else [],
   fun _ => [], fun _ => []⟩

/-- A sample setting definition storing no `default_value` property. -/
def defNoDefault : SettingDefinition :=
  .mk "a" [("label", .str "A"), ("type", .str "str"),
    ("description", .str "D")] [] []

/-- A sample definition container holding only `defNoDefault`. -/
def contNoDefault : DefinitionContainer :=
  ⟨"c", .str "c", .obj [], [defNoDefault], none⟩

/-- A sample setting document holding every schema-required property. -/
def settingDocComplete : List (String × JValue) :=
  [("label", .str "L"), ("type", .str "str"), ("description", .str "D")]

/-- A sample setting document missing the required `label` property. -/
def settingDocNoLabel : List (String × JValue) :=
  [("type", .str "str"), ("description", .str "D")]

/-- The trivial expression analyzer for sample documents without function
properties. -/
def extractNone : String → List String := fun _ => []

/-- A sample definition `A` with no function properties. -/
def defA : SettingDefinition := .mk "A" [("label", .str "A")] [] []

/-- A sample definition `B` whose `enabled` expression references `A`. -/
def defB : SettingDefinition :=
  .mk "B" [("enabled", .func ⟨"A", ["A"]⟩)] [] []

/-- The two-definition sample forest for the relation-pairing witness. -/
def forestAB : List SettingDefinition := [defA, defB]

/-!
## Theorems about the container stack
-/

/-- Spec-side layered lookup, stated from the spec's words ("scan the
containers in order starting at index 0 and return the first non-absent
value; if every container returns absent and a next stack is set, the result
is the next stack's result; otherwise absent").  First argument: the
per-container results in stack order; second: the next stack's result when a
next stack is set. -/
def layeredLookupSpec : List (Option JValue) → Option (Option JValue) → Option JValue
  | [], next => next.getD none
  | some v :: _, _ => some v
  | none :: rest, next => layeredLookupSpec rest next

/-- The scan loop agrees with the spec-side layered lookup. -/
theorem getValueFrom_layered (cs : List Container) (ns : Option ContainerStack)
    (key : String) :
    ContainerStack.getValueFrom cs ns key =
      layeredLookupSpec (cs.map (fun c => c.getVal key))
        (ns.map (fun s => s.getValue key)) := by
  induction cs with
  | nil => cases ns <;> simp [ContainerStack.getValueFrom, layeredLookupSpec]
  | cons c rest ih =>
    cases hv : c.getVal key <;>
      simp [ContainerStack.getValueFrom, hv, layeredLookupSpec, ih]

/-- **C1**: for every container stack and key, `getValue` returns the first
non-absent value a container returns for the key, scanning in order from
index 0; when every container returns absent it returns the next stack's
`getValue` result if a next stack is set, and absent otherwise. -/
theorem containerStack_getValue_layered (s : ContainerStack) (key : String) :
    s.getValue key =
      layeredLookupSpec (s.containers.map (fun c => c.getVal key))
        (s.nextStack.map (fun ns => ns.getValue key)) := by
  obtain ⟨i, n, m, cs, ns⟩ := s
  rw [ContainerStack.getValue]
  exact getValueFrom_layered cs ns key

/-- **C8**: `getContainer (-1)`, `replaceContainer (-1, x)` and
`removeContainer (-1)` all raise `IndexError` with the container list
unchanged (the state carried by the error is the original one), and
`removeContainer` with a non-negative index at or past the end of the list
also raises `IndexError` without mutating. -/
theorem containerStack_index_validation (s : ContainerStack) (x : Container)
    (i : Int) :
    s.getContainer (-1) = .error .indexError ∧
    s.replaceContainer (-1) x = .error (.indexError, s) ∧
    s.removeContainer (-1) = .error (.indexError, s) ∧
    (0 ≤ i → (s.containers.length : Int) ≤ i →
      s.removeContainer i = .error (.indexError, s)) := by
  refine ⟨by simp [ContainerStack.getContainer],
    by simp [ContainerStack.replaceContainer],
    by simp [ContainerStack.removeContainer], ?_⟩
  intro h0 hlen
  have hne : ¬ i = -1 := by omega
  have hcond : ¬ (0 ≤ i ∧ i < (s.containers.length : Int)) := by omega
  have hneg : ¬ i < 0 := by omega
  simp [ContainerStack.removeContainer, pyListDel, pyIndex, hne, hneg, hcond]

/-- Effective index of `-2` in a list of length at least 2: the
second-to-last position. -/
theorem pyIndex_neg_two {n : Nat} (h : 2 ≤ n) :
    pyIndex n (-2) = some (n - 2) := by
  simp only [pyIndex]
  rw [if_pos (by omega : (-2 : Int) < 0)]
  split_ifs with hc
  · simp only [Option.some.injEq]
    omega
  · exfalso
    omega

/-- **C9**: only the sentinel `-1` is rejected; for a stack with at least two
containers, `-2` counts from the end of the list as in Python:
`getContainer (-2)` returns the second-to-last container,
`replaceContainer (-2, c)` replaces it and `removeContainer (-2)` removes it,
none of them raising `IndexError`. -/
theorem containerStack_negative_index_from_end (s : ContainerStack)
    (c : Container) (h : 2 ≤ s.containers.length) :
    s.getContainer (-2) =
      .ok (s.containers.get ⟨s.containers.length - 2, by omega⟩) ∧
    s.replaceContainer (-2) c =
      .ok (s.withContainers (s.containers.set (s.containers.length - 2) c)) ∧
    s.removeContainer (-2) =
      .ok (s.withContainers (s.containers.eraseIdx (s.containers.length - 2))) := by
  have hne : ¬ (-2 : Int) = -1 := by decide
  have hidx := pyIndex_neg_two h
  refine ⟨?_, ?_, ?_⟩
  · simp only [ContainerStack.getContainer, if_neg hne, pyListGet, hidx]
    rw [List.get?_eq_get (by omega)]
  · simp [ContainerStack.replaceContainer, if_neg hne, pyListSet, hidx]
  · simp [ContainerStack.removeContainer, if_neg hne, pyListDel, hidx]

/-- Witness for C9: the two-container sample stack, with `-2` addressing the
first of its two containers. -/
theorem containerStack_negative_index_from_end_witness :
    stack2.getContainer (-2) =
      .ok (stack2.containers.get ⟨stack2.containers.length - 2, by decide⟩) ∧
    stack2.replaceContainer (-2) contB =
      .ok (stack2.withContainers
        (stack2.containers.set (stack2.containers.length - 2) contB)) ∧
    stack2.removeContainer (-2) =
      .ok (stack2.withContainers
        (stack2.containers.eraseIdx (stack2.containers.length - 2))) :=
  containerStack_negative_index_from_end stack2 contB (by decide)

/-- `pySplitChars` never returns an empty list of pieces. -/
theorem pySplitChars_ne_nil (sep : Char) (cs : List Char) :
    pySplitChars sep cs ≠ [] := by
  induction cs with
  | nil => simp [pySplitChars]
  | cons c rest ih =>
    by_cases h : c = sep
    · simp [pySplitChars, h]
    · simp only [pySplitChars, if_neg h]
      cases hm : pySplitChars sep rest <;> simp

/-- Splitting at the first separator occurrence cuts off the separator-free
prefix. -/
theorem pySplitChars_append (sep : Char) (xs ys : List Char) (h : sep ∉ xs) :
    pySplitChars sep (xs ++ sep :: ys) = xs :: pySplitChars sep ys := by
  induction xs with
  | nil => simp [pySplitChars]
  | cons c rest ih =>
    have hc : ¬ c = sep := fun hcs => h (hcs ▸ List.mem_cons_self c rest)
    have hmem : sep ∉ rest := fun hm => h (List.mem_cons_of_mem _ hm)
    rw [List.cons_append, pySplitChars, if_neg hc, ih hmem]

/-- The comma-joined id string of two comma-free ids splits back into the two
ids followed by the empty piece left by the trailing comma. -/
theorem pySplit_join_two (c1 c2 : Container)
    (h1 : (',' : Char) ∉ c1.cid.data) (h2 : (',' : Char) ∉ c2.cid.data) :
    pySplit (ContainerStack.joinContainerIds [c1, c2]) ',' =
      [c1.cid, c2.cid, ""] := by
  have hdata : (ContainerStack.joinContainerIds [c1, c2]).data =
      c1.cid.data ++ ',' :: (c2.cid.data ++ ',' :: ([] : List Char)) := by
    simp [ContainerStack.joinContainerIds, String.data_append]
  rw [pySplit, hdata, pySplitChars_append _ _ _ h1, pySplitChars_append _ _ _ h2]
  rfl

/-- Unfolding equation for `resolveContainers` on the empty id list. -/
theorem resolveContainers_nil (reg : ContainerRegistry) (s : ContainerStack) :
    ContainerStack.resolveContainers reg [] s = .ok s := rfl

/-- Unfolding equation for `resolveContainers` on a non-empty id list. -/
theorem resolveContainers_cons (reg : ContainerRegistry) (cid : String)
    (rest : List String) (s : ContainerStack) :
    ContainerStack.resolveContainers reg (cid :: rest) s =
      if cid = "" then ContainerStack.resolveContainers reg rest s
      else
        match reg.resolve cid with
        | some c =>
          ContainerStack.resolveContainers reg rest
            (s.withContainers (s.containers ++ [c]))
        | none => .error (.unknownContainerId, s) := rfl

/-- **C7**: serializing a stack holding containers `[c1, c2]` and metadata
`{"x": "1"}`, then deserializing the result into a fresh stack while the
registry resolves each of the two ids to its container, reproduces the id,
the name, the metadata mapping and the container id sequence
`[c1.id, c2.id]`. -/
theorem containerStack_serialize_roundtrip (reg : ContainerRegistry)
    (s : ContainerStack) (c1 c2 : Container) (fid : String)
    (hc : s.containers = [c1, c2])
    (hm : s.metadata = [("x", "1")])
    (h1 : (',' : Char) ∉ c1.cid.data) (h2 : (',' : Char) ∉ c2.cid.data)
    (hne1 : c1.cid ≠ "") (hne2 : c2.cid ≠ "")
    (hr1 : reg.resolve c1.cid = some c1) (hr2 : reg.resolve c2.cid = some c2) :
    ∃ t, ContainerStack.deserialize reg (freshStack fid) s.serialize = .ok t ∧
      t.stackId = s.stackId ∧ t.name = s.name ∧ t.metadata = s.metadata ∧
      t.containers.map Container.cid = [c1.cid, c2.cid] := by
  refine ⟨.mk s.stackId s.name [("x", "1")] [c1, c2] none, ?_, rfl, rfl, hm.symm, rfl⟩
  rw [ContainerStack.deserialize, ContainerStack.serialize, hc, hm]
  have e1 : pyLower "version" = "version" := by decide
  have e2 : pyLower "name" = "name" := by decide
  have e3 : pyLower "id" = "id" := by decide
  have e4 : pyLower "containers" = "containers" := by decide
  have e5 : pyLower "x" = "x" := by decide
  have hp : pyParseInt "2" = some 2 := by decide
  simp only [lowerOptions, List.map_cons, List.map_nil, e1, e2, e3, e4, e5]
  simp [assocGet, hp]
  rw [pySplit_join_two c1 c2 h1 h2]
  rw [resolveContainers_cons, if_neg hne1, hr1]
  dsimp only
  rw [resolveContainers_cons, if_neg hne2, hr2]
  dsimp only
  rw [resolveContainers_cons, if_pos rfl, resolveContainers_nil]
  rfl

/-- Witness for C7: the sample two-container stack with metadata
`{"x": "1"}`, round-tripped through the sample registry. -/
theorem containerStack_serialize_roundtrip_witness :
    ∃ t, ContainerStack.deserialize regAB (freshStack "fresh")
        stack2m.serialize = .ok t ∧
      t.stackId = stack2m.stackId ∧ t.name = stack2m.name ∧
      t.metadata = stack2m.metadata ∧
      t.containers.map Container.cid = [contA.cid, contB.cid] :=
  containerStack_serialize_roundtrip regAB stack2m contA contB "fresh"
    rfl rfl (by decide) (by decide) (by decide) (by decide) rfl rfl

/-- A separator-free character list is one whole piece. -/
theorem pySplitChars_no_sep (sep : Char) (xs : List Char) (h : sep ∉ xs) :
    pySplitChars sep xs = [xs] := by
  induction xs with
  | nil => rfl
  | cons c rest ih =>
    have hc : ¬ c = sep := fun hcs => h (hcs ▸ List.mem_cons_self c rest)
    have hmem : sep ∉ rest := fun hm => h (List.mem_cons_of_mem _ hm)
    rw [pySplitChars, if_neg hc, ih hmem]

/-- `split` on `a ++ "," ++ b` cuts at that comma when `a` is comma-free. -/
theorem pySplit_append (a b : String) (h : (',' : Char) ∉ a.data) :
    pySplit (a ++ "," ++ b) ',' = a :: pySplit b ',' := by
  have hd : (a ++ "," ++ b).data = a.data ++ ',' :: b.data := by
    simp [String.data_append]
  rw [pySplit, hd, pySplitChars_append _ _ _ h]
  rfl

/-- `split` leaves a comma-free string whole. -/
theorem pySplit_single (b : String) (h : (',' : Char) ∉ b.data) :
    pySplit b ',' = [b] := by
  rw [pySplit, pySplitChars_no_sep _ _ h]
  rfl

/-- **C10**: `ContainerStack.deserialize` is not atomic on a
container-resolution failure: for a document whose container id list is a
resolvable id `a` followed by an unresolvable id `b`, the call raises the
unknown-container error, but in the state at raise time `_name` and `_id`
have already been replaced by the document's values and the container
resolved for `a` has already been appended. -/
theorem containerStack_deserialize_not_atomic (reg : ContainerRegistry)
    (s : ContainerStack) (nm idv a b : String) (ca : Container)
    (ha : a ≠ "") (hb : b ≠ "")
    (hca : (',' : Char) ∉ a.data) (hcb : (',' : Char) ∉ b.data)
    (hra : reg.resolve a = some ca) (hrb : reg.resolve b = none) :
    ContainerStack.deserialize reg s
        [("general", [("version", "2"), ("name", nm), ("id", idv),
          ("containers", a ++ "," ++ b)])] =
      .error (.unknownContainerId,
        .mk idv nm s.metadata (s.containers ++ [ca]) s.nextStack) := by
  obtain ⟨i0, n0, m0, cs0, ns0⟩ := s
  rw [ContainerStack.deserialize]
  have e1 : pyLower "version" = "version" := by decide
  have e2 : pyLower "name" = "name" := by decide
  have e3 : pyLower "id" = "id" := by decide
  have e4 : pyLower "containers" = "containers" := by decide
  have hp : pyParseInt "2" = some 2 := by decide
  simp only [lowerOptions, List.map_cons, List.map_nil, e1, e2, e3, e4]
  simp [assocGet, hp]
  rw [pySplit_append a b hca, pySplit_single b hcb]
  rw [resolveContainers_cons, if_neg ha, hra]
  dsimp only
  rw [resolveContainers_cons, if_neg hb, hrb]
  rfl

/-- Witness for C10: a document listing the resolvable id `"a"` then the
unresolvable id `"u"`, deserialized into the sample stack. -/
theorem containerStack_deserialize_not_atomic_witness :
    ContainerStack.deserialize regAB stack2
        [("general", [("version", "2"), ("name", "newname"), ("id", "newid"),
          ("containers", "a" ++ "," ++ "u")])] =
      .error (.unknownContainerId,
        .mk "newid" "newname" stack2.metadata
          (stack2.containers ++ [contA]) stack2.nextStack) :=
  containerStack_deserialize_not_atomic regAB stack2 "newname" "newid" "a" "u"
    contA (by decide) (by decide) (by decide) (by decide) rfl rfl

/-- **C2** (code bug in `_findInDict`): the override fields are NOT merged
into the matching setting sub-document.  For a top-level settings key the
defective `_findInDict` returns the settings dictionary itself, so
`setting.update(...)` merges the override fields into the settings mapping
(beside the sub-document, which stays unchanged); for a key nested deeper
the recursion discards its results and the loop fails with
`AttributeError`. -/
theorem definitionContainer_overrides_misdirected :
    applyOverrides
        (.obj [("a", .obj [("label", .str "A"), ("default_value", .int 1)])])
        [("a", .obj [("label", .str "X")])] =
      .ok (.obj [("a", .obj [("label", .str "A"), ("default_value", .int 1)]),
        ("label", .str "X")]) ∧
    applyOverrides
        (.obj [("a", .obj [("label", .str "A"),
          ("children", .obj [("nested", .obj [("label", .str "N")])])])])
        [("nested", .obj [("label", .str "X")])] =
      .error .attributeError :=
  ⟨rfl, rfl⟩

/-- **C3** (amended): `DefinitionContainer.getValue` returns the
`default_value` property of the first definition matching the key, and
absent — without failing — when no definition matches; but when the first
matching definition stores no `default_value` property the read raises
`AttributeError` (through `SettingDefinition.__getattr__`). -/
theorem definitionContainer_getValue_cases (c : DefinitionContainer)
    (key : String) :
    (c.findDefinitionsByKey key = [] → c.getValue key = .ok none) ∧
    (∀ d rest, c.findDefinitionsByKey key = d :: rest →
      c.getValue key =
        match assocGet d.propertyValues "default_value" with
        | some pv => .ok (some pv)
        | none => .error .attributeError) := by
  constructor
  · intro h
    simp [DefinitionContainer.getValue, h]
  · intro d rest h
    simp only [DefinitionContainer.getValue, h]

/-- Counterexample to C3 as stated: a definition matching the key exists but
has no `default_value` property, and `getValue` raises `AttributeError`
instead of returning absent. -/
theorem definitionContainer_getValue_raises :
    contNoDefault.getValue "a" = .error .attributeError := by
  simp [DefinitionContainer.getValue, DefinitionContainer.findDefinitionsByKey,
    findByKeyInList, SettingDefinition.findByKey, contNoDefault, defNoDefault,
    SettingDefinition.propertyValues, DefinitionContainer.definitions,
    assocGet]

/-- **C4**: a serialized stack document (whose `general` section carries
`version`, `name` and `id`) with an integer version different from
`ContainerStack.Version = 2` fails `deserialize` with
`IncorrectVersionError`, the stack unchanged; and a definition document
(carrying `version` and `name`) whose version value differs from
`DefinitionContainer.Version = 2` fails with the version-mismatch error, the
container unchanged — both checks run before any mutation. -/
theorem version_mismatch_rejected
    (reg : ContainerRegistry) (s : ContainerStack) (doc : ConfigDoc)
    (g : List (String × String)) (vs : String) (v : Int)
    (loadFile : String → Option (List (String × JValue)))
    (extractUsed : String → List String) (fuel : Nat)
    (c : DefinitionContainer) (parsed : List (String × JValue))
    (vv nv : JValue)
    (hg : assocGet (lowerOptions doc) "general" = some g)
    (hv : assocGet g "version" = some vs)
    (hn : (assocGet g "name").isSome) (hi : (assocGet g "id").isSome)
    (hpv : pyParseInt vs = some v) (hv2 : v ≠ 2)
    (hdv : assocGet parsed "version" = some vv)
    (hdn : assocGet parsed "name" = some nv)
    (hvv : isPyIntTwo vv = false) :
    ContainerStack.deserialize reg s doc = .error (.incorrectVersion, s) ∧
    DefinitionContainer.deserialize loadFile extractUsed fuel c parsed =
      .error (.incorrectVersion, c) := by
  constructor
  · obtain ⟨nm, hn⟩ := Option.isSome_iff_exists.mp hn
    obtain ⟨idv, hi⟩ := Option.isSome_iff_exists.mp hi
    rw [ContainerStack.deserialize]
    simp only [hg, hv, hn, hi, hpv, if_neg hv2]
  · simp only [DefinitionContainer.deserialize, verifyJson, hdv, hdn, hvv]
    rfl

/-- Witness for C4: version `3` rejected by both deserializers, the targets
returned unchanged. -/
theorem version_mismatch_rejected_witness :
    ContainerStack.deserialize regAB stack2
        [("general", [("version", "3"), ("name", "n"), ("id", "i")])] =
      .error (.incorrectVersion, stack2) ∧
    DefinitionContainer.deserialize (fun _ => none) extractNone 0 contNoDefault
        [("version", .int 3), ("name", .str "n")] =
      .error (.incorrectVersion, contNoDefault) :=
  version_mismatch_rejected regAB stack2
    [("general", [("version", "3"), ("name", "n"), ("id", "i")])]
    [("version", "3"), ("name", "n"), ("id", "i")] "3" 3
    (fun _ => none) extractNone 0 contNoDefault
    [("version", .int 3), ("name", .str "n")] (.int 3) (.str "n")
    (by decide) (by decide) (by decide) (by decide) (by decide) (by decide)
    rfl rfl rfl

/-- **C6**: when the item loop of `_deserialize_dict` completes, a
schema-required property absent from the stored values makes `deserialize`
fail with the missing-required-property error naming the setting key and a
missing property, and with every required property present it succeeds (in
particular it does not raise that error). -/
theorem settingDefinition_required_enforced
    (i18n : Option (String → String)) (extractUsed : String → List String)
    (key : String) (fields : List (String × JValue))
    (values : List (String × PropValue)) (children : List SettingDefinition)
    (hproc : processItems i18n extractUsed key [] [] fields =
      .ok (values, children)) :
    ((∃ p ∈ requiredPropertyNames, assocGet values p = none) →
      ∃ p ∈ requiredPropertyNames, assocGet values p = none ∧
        deserializeDict i18n extractUsed key fields =
          .error (.missingRequired key p)) ∧
    ((∀ p ∈ requiredPropertyNames, (assocGet values p).isSome) →
      deserializeDict i18n extractUsed key fields =
        .ok (.mk key values children [])) := by
  have hdd : deserializeDict i18n extractUsed key fields =
      match checkRequired key values with
      | .error e => .error e
      | .ok _ => .ok (.mk key values children []) := by
    rw [deserializeDict, hproc]
  constructor
  · rintro ⟨p, hp, hmiss⟩
    simp only [requiredPropertyNames] at hp
    have hsome : ((propertyDefinitions.filter fun e => e.2.required).find?
        (fun e => (assocGet values e.1).isNone)).isSome := by
      rw [List.find?_isSome]
      obtain ⟨e, he, hfst⟩ := List.mem_map.mp hp
      exact ⟨e, he, by simp [hfst, hmiss]⟩
    obtain ⟨e, hfind⟩ := Option.isSome_iff_exists.mp hsome
    have hpe := List.find?_some hfind
    have hmem := List.mem_of_find?_eq_some hfind
    refine ⟨e.1, ?_, ?_, ?_⟩
    · simp only [requiredPropertyNames]
      exact List.mem_map_of_mem _ hmem
    · simpa using hpe
    · rw [hdd, checkRequired, hfind]
  · intro h
    have hnone : (propertyDefinitions.filter fun e => e.2.required).find?
        (fun e => (assocGet values e.1).isNone) = none := by
      rw [List.find?_eq_none]
      intro e he
      have h1 := h e.1 (by
        simp only [requiredPropertyNames]
        exact List.mem_map_of_mem _ he)
      simp only [Option.isNone_eq_false_iff, Option.isSome_iff_ne_none] at h1 ⊢
      simpa using h1
    rw [hdd, checkRequired, hnone]

/-- Witness for C6: the complete sample document deserializes successfully
into a definition with the three processed properties; its loop result is
computed concretely. -/
theorem settingDefinition_required_enforced_witness :
    deserializeDict none extractNone "k" settingDocComplete =
      .ok (.mk "k" [("label", .val (.str "L")), ("type", .str "str"),
        ("description", .val (.str "D"))] [] []) :=
  (settingDefinition_required_enforced none extractNone "k" settingDocComplete
    [("label", .val (.str "L")), ("type", .str "str"),
      ("description", .val (.str "D"))] []
    (by simp [processItems, settingDocComplete, assocGet, assocSet,
      storedPropValue, isValidTypeValue, typeNames, pyStr,
      propertyDefinitions])).2
    (by decide)

/-!
### Lemmas for the relation-building pass (C5)
-/

mutual

/-- The found flag of `addRelTree` is the success of `findByKey`. -/
theorem addRelTree_found (d : SettingDefinition) (k' : String)
    (r : SettingRelation) :
    (addRelTree d k' r).2 = true ↔ d.findByKey k' ≠ [] := by
  obtain ⟨k, pv, cs, rs⟩ := d
  by_cases hk : k = k'
  · subst hk
    simp [addRelTree, SettingDefinition.findByKey]
  · have ih := addRelInList_found cs k' r
    simpa [addRelTree, SettingDefinition.findByKey, hk] using ih
termination_by sizeOf d

/-- The found flag of `addRelInList` is the success of `findByKeyInList`. -/
theorem addRelInList_found (ds : List SettingDefinition) (k' : String)
    (r : SettingRelation) :
    (addRelInList ds k' r).2 = true ↔ findByKeyInList ds k' ≠ [] := by
  match ds with
  | [] => simp [addRelInList, findByKeyInList]
  | d :: rest =>
    have iht := addRelTree_found d k' r
    have ihl := addRelInList_found rest k' r
    simp only [addRelInList, findByKeyInList]
    rcases hsplit : addRelTree d k' r with ⟨d1, f1⟩
    rw [hsplit] at iht
    cases f1
    · rcases hsplit2 : addRelInList rest k' r with ⟨rest1, f2⟩
      rw [hsplit2] at ihl
      have hemp : d.findByKey k' = [] := by
        by_contra hne
        simpa using iht.mpr hne
      simp [hemp, ihl]
    · have hne : d.findByKey k' ≠ [] := iht.mp rfl
      simp [hne]
termination_by sizeOf ds

end

/-- `headAppend` acts on the left part of an append when that part is
non-empty. -/
theorem headAppend_left (xs ys : List (List SettingRelation))
    (r : SettingRelation) (h : xs ≠ []) :
    headAppend (xs ++ ys) r = headAppend xs r ++ ys := by
  cases xs with
  | nil => exact absurd rfl h
  | cons a t => simp [headAppend]

mutual

/-- How one `addRelTree` shows up on the relation lists of depth-first
search results: when the searched key is the added-to key and the node was
found, the first result's relations gain the appended relation; otherwise
the relation lists are unchanged. -/
theorem addRelTree_findMap (d : SettingDefinition) (k' k : String)
    (r : SettingRelation) :
    ((addRelTree d k' r).1.findByKey k).map SettingDefinition.relations =
      if k = k' ∧ (addRelTree d k' r).2 = true then
        headAppend ((d.findByKey k).map SettingDefinition.relations) r
      else (d.findByKey k).map SettingDefinition.relations := by
  obtain ⟨κ, pv, cs, rs⟩ := d
  by_cases hk : κ = k'
  · subst hk
    simp only [addRelTree, if_pos rfl, SettingDefinition.findByKey]
    by_cases hkk : κ = k
    · subst hkk
      simp [SettingDefinition.findByKey, SettingDefinition.relations,
        headAppend]
    · have hkk2 : ¬ k = κ := fun h => hkk h.symm
      simp [SettingDefinition.findByKey, hkk, hkk2]
  · have ihl := addRelInList_findMap cs k' k r
    rcases hsplit : addRelInList cs k' r with ⟨cs', found⟩
    rw [hsplit] at ihl
    simp only [addRelTree, if_neg hk, hsplit, SettingDefinition.findByKey]
    by_cases hcond : k = k' ∧ found = true
    · obtain ⟨hkk', hfound⟩ := hcond
      subst hkk'
      have hself : ¬ κ = k := hk
      simp only [if_neg hself, List.nil_append, List.map_append] at ihl ⊢
      simp [ihl, hfound]
    · have : ((if κ = k then [SettingDefinition.mk κ pv cs' rs] else
          []).map SettingDefinition.relations) =
          ((if κ = k then [SettingDefinition.mk κ pv cs rs] else
          []).map SettingDefinition.relations) := by
        by_cases hkk : κ = k <;> simp [hkk, SettingDefinition.relations]
      simp only [List.map_append, ihl, if_neg hcond, this]
termination_by sizeOf d

/-- `addRelTree_findMap` over lists of definition trees. -/
theorem addRelInList_findMap (ds : List SettingDefinition) (k' k : String)
    (r : SettingRelation) :
    (findByKeyInList (addRelInList ds k' r).1 k).map
        SettingDefinition.relations =
      if k = k' ∧ (addRelInList ds k' r).2 = true then
        headAppend ((findByKeyInList ds k).map SettingDefinition.relations) r
      else (findByKeyInList ds k).map SettingDefinition.relations := by
  match ds with
  | [] => simp [addRelInList, findByKeyInList, headAppend]
  | d :: rest =>
    have iht := addRelTree_findMap d k' k r
    have ihtf := addRelTree_found d k' r
    have ihl := addRelInList_findMap rest k' k r
    have ihlf := addRelInList_found rest k' r
    simp only [addRelInList, findByKeyInList]
    rcases hsplit : addRelTree d k' r with ⟨d1, f1⟩
    rw [hsplit] at iht ihtf
    cases f1
    · rcases hsplit2 : addRelInList rest k' r with ⟨rest1, f2⟩
      rw [hsplit2] at ihl ihlf
      simp only [findByKeyInList, List.map_append] at iht ihl ⊢
      simp only [Bool.false_eq_true, and_false, if_false] at iht
      by_cases hcond : k = k' ∧ f2 = true
      · obtain ⟨hkk', hf2⟩ := hcond
        subst hkk'
        have hdem : d.findByKey k = [] := by
          by_contra hne
          simpa using ihtf.mpr hne
        simp [iht, ihl, hf2, hdem]
      · simp [iht, ihl, if_neg hcond, hcond]
    · have hne : d.findByKey k' ≠ [] := ihtf.mp rfl
      simp only [findByKeyInList, List.map_append] at iht ⊢
      by_cases hkk' : k = k'
      · subst hkk'
        have hmapne : (d.findByKey k).map SettingDefinition.relations ≠ [] := by
          simpa using hne
        simp only [and_true, if_pos rfl] at iht ⊢
        rw [iht, headAppend_left _ _ _ hmapne]
        simp
      · simp [iht, hkk']
termination_by sizeOf ds

end

/-- `headAppend` preserves emptiness. -/
theorem headAppend_eq_nil (xs : List (List SettingRelation))
    (r : SettingRelation) : headAppend xs r = [] ↔ xs = [] := by
  cases xs <;> simp [headAppend]

/-- `addRelForest` does not change which keys resolve. -/
theorem addRelForest_find_empty (f : List SettingDefinition) (k' k : String)
    (r : SettingRelation) :
    findByKeyInList (addRelForest f k' r) k = [] ↔
      findByKeyInList f k = [] := by
  have hmap := addRelInList_findMap f k' k r
  unfold addRelForest
  constructor <;> intro h
  · rw [h] at hmap
    simp only [List.map_nil] at hmap
    split at hmap
    · rw [eq_comm, headAppend_eq_nil] at hmap
      simpa using hmap
    · simpa using hmap.symm
  · rw [h] at hmap
    simp only [List.map_nil, headAppend] at hmap
    split at hmap <;> simpa using hmap

/-- The Bool `resolvable` is the success of `findByKeyInList`. -/
theorem resolvable_iff (f : List SettingDefinition) (s : String) :
    resolvable f s = true ↔ findByKeyInList f s ≠ [] := by
  simp [resolvable]

/-- How one `addRelForest` changes the relation list a key denotes: the
added-to key gains the relation at the end when it resolves; every other
key's relation list is unchanged. -/
theorem relationsOfKey_addRelForest (f : List SettingDefinition)
    (k' k : String) (r : SettingRelation) :
    relationsOfKey (addRelForest f k' r) k =
      relationsOfKey f k ++
        (if k = k' ∧ resolvable f k' then [r] else []) := by
  have hmap := addRelInList_findMap f k' k r
  have hfound := addRelInList_found f k' r
  unfold relationsOfKey addRelForest
  by_cases hcond : k = k' ∧ (addRelInList f k' r).2 = true
  · obtain ⟨hk, hfl⟩ := hcond
    have hne' : findByKeyInList f k' ≠ [] := hfound.mp hfl
    rw [if_pos ⟨hk, hfl⟩] at hmap
    rw [if_pos ⟨hk, (resolvable_iff f k').mpr hne'⟩]
    subst hk
    cases hfind : findByKeyInList f k with
    | nil => exact absurd hfind hne'
    | cons d rest =>
      rw [hfind] at hmap
      simp only [List.map_cons, headAppend] at hmap
      cases hfindnew : findByKeyInList (addRelInList f k r).1 k with
      | nil => rw [hfindnew] at hmap; simp at hmap
      | cons e erest =>
        rw [hfindnew] at hmap
        simp only [List.map_cons, List.cons.injEq] at hmap
        exact hmap.1
  · rw [if_neg hcond] at hmap
    have hnil : (if k = k' ∧ resolvable f k' then [r] else
        ([] : List SettingRelation)) = [] := by
      rw [if_neg]
      intro ⟨hk, hres⟩
      exact hcond ⟨hk, hfound.mpr ((resolvable_iff f k').mp hres)⟩
    rw [hnil, List.append_nil]
    cases hfind : findByKeyInList f k with
    | nil =>
      rw [hfind] at hmap
      simp only [List.map_nil] at hmap
      have : findByKeyInList (addRelInList f k' r).1 k = [] := by
        simpa using hmap
      rw [this]
    | cons d rest =>
      rw [hfind] at hmap
      cases hfindnew : findByKeyInList (addRelInList f k' r).1 k with
      | nil => rw [hfindnew] at hmap; simp at hmap
      | cons e erest =>
        rw [hfindnew] at hmap
        simp only [List.map_cons, List.cons.injEq] at hmap
        exact hmap.1

mutual

/-- Every definition `findByKey` returns has the searched key. -/
theorem findByKey_key (d : SettingDefinition) (k : String) :
    ∀ e ∈ d.findByKey k, e.key = k := by
  obtain ⟨κ, pv, cs, rs⟩ := d
  intro e he
  simp only [SettingDefinition.findByKey] at he
  rcases List.mem_append.mp he with h1 | h2
  · by_cases hk : κ = k
    · rw [if_pos hk] at h1
      simp only [List.mem_singleton] at h1
      subst h1
      exact hk
    · rw [if_neg hk] at h1
      simp at h1
  · exact findByKeyInList_key cs k e h2
termination_by sizeOf d

/-- Every definition `findByKeyInList` returns has the searched key. -/
theorem findByKeyInList_key (ds : List SettingDefinition) (k : String) :
    ∀ e ∈ findByKeyInList ds k, e.key = k := by
  match ds with
  | [] => intro e he; simp [findByKeyInList] at he
  | d :: rest =>
    intro e he
    simp only [findByKeyInList] at he
    rcases List.mem_append.mp he with h1 | h2
    · exact findByKey_key d k e h1
    · exact findByKeyInList_key rest k e h2
termination_by sizeOf ds

end

/-- Two forests agreeing on which keys resolve have equal `resolvable`. -/
theorem resolvable_eq_of_agree {g f : List SettingDefinition}
    (h : ∀ s, findByKeyInList g s = [] ↔ findByKeyInList f s = [])
    (s : String) : resolvable g s = resolvable f s := by
  simp only [resolvable]
  by_cases hg : findByKeyInList g s = []
  · simp [hg, (h s).mp hg]
  · have hf : findByKeyInList f s ≠ [] := fun hf => hg ((h s).mpr hf)
    have h1 : (findByKeyInList g s).isEmpty = false := by
      simp [List.isEmpty_iff, hg]
    have h2 : (findByKeyInList f s).isEmpty = false := by
      simp [List.isEmpty_iff, hf]
    simp [h1, h2]

/-- One iteration of the `_processFunction` loop: the appended relations are
exactly `eventRel` of the processed reference, and key resolvability is
unchanged. -/
theorem processStep_spec (f g : List SettingDefinition)
    (defKey property s : String)
    (hagree : ∀ t, findByKeyInList g t = [] ↔ findByKeyInList f t = []) :
    ∃ g', (match findByKeyInList g s with
        | [] => g
        | other :: _ =>
          let f1 := addRelForest g defKey
            ⟨defKey, other.key, .RequiresTarget, property⟩
          addRelForest f1 other.key
            ⟨other.key, defKey, .RequiredByTarget, property⟩) = g' ∧
      (∀ k, relationsOfKey g' k =
        relationsOfKey g k ++ eventRel (resolvable f) k (defKey, property, s)) ∧
      (∀ t, findByKeyInList g' t = [] ↔ findByKeyInList f t = []) := by
  cases hfind : findByKeyInList g s with
  | nil =>
    refine ⟨g, rfl, ?_, hagree⟩
    intro k
    have hres : resolvable f s = false := by
      have hfs : findByKeyInList f s = [] := (hagree s).mp hfind
      simp [resolvable, hfs]
    simp [eventRel, hres]
  | cons other tail =>
    have hkey : other.key = s :=
      findByKeyInList_key g s other (by rw [hfind]; exact List.mem_cons_self other tail)
    refine ⟨_, rfl, ?_, ?_⟩
    · intro k
      rw [relationsOfKey_addRelForest, relationsOfKey_addRelForest,
        List.append_assoc]
      congr 1
      have hress : resolvable f s = true := by
        rw [resolvable_iff]
        intro hfs
        rw [(hagree s).mpr hfs] at hfind
        exact List.noConfusion hfind
      have hresd : resolvable g defKey = resolvable f defKey :=
        resolvable_eq_of_agree hagree defKey
      have hag1 : ∀ t, findByKeyInList (addRelForest g defKey
          ⟨defKey, other.key, .RequiresTarget, property⟩) t = [] ↔
          findByKeyInList f t = [] :=
        fun t => (addRelForest_find_empty g defKey t _).trans (hagree t)
      have hres1 : resolvable (addRelForest g defKey
          ⟨defKey, other.key, .RequiresTarget, property⟩) other.key = true := by
        rw [resolvable_eq_of_agree hag1, hkey]
        exact hress
      rw [hkey] at hres1
      rw [eventRel, if_pos hress, hkey, hresd, hres1]
      simp
    · intro t
      exact ((addRelForest_find_empty _ other.key t _).trans
        ((addRelForest_find_empty g defKey t _).trans (hagree t)))

/-- The `for setting in function.getUsedSettings()` fold of
`_processFunction`: relation lists grow by the `eventRel` stream of the
processed references; resolvability is unchanged. -/
theorem processFold_spec (f : List SettingDefinition)
    (defKey property : String) (ss : List String) :
    ∀ g : List SettingDefinition,
      (∀ t, findByKeyInList g t = [] ↔ findByKeyInList f t = []) →
      (∀ k, relationsOfKey (ss.foldl (fun f setting =>
          match findByKeyInList f setting with
          | [] => f
          | other :: _ =>
            let f1 := addRelForest f defKey
              ⟨defKey, other.key, .RequiresTarget, property⟩
            addRelForest f1 other.key
              ⟨other.key, defKey, .RequiredByTarget, property⟩) g) k =
        relationsOfKey g k ++
          (ss.map (fun s => (defKey, property, s))).flatMap
            (eventRel (resolvable f) k)) ∧
      (∀ t, findByKeyInList (ss.foldl (fun f setting =>
          match findByKeyInList f setting with
          | [] => f
          | other :: _ =>
            let f1 := addRelForest f defKey
              ⟨defKey, other.key, .RequiresTarget, property⟩
            addRelForest f1 other.key
              ⟨other.key, defKey, .RequiredByTarget, property⟩) g) t = [] ↔
        findByKeyInList f t = []) := by
  induction ss with
  | nil =>
    intro g hagree
    exact ⟨fun k => by simp, hagree⟩
  | cons s rest ih =>
    intro g hagree
    obtain ⟨g', heq, hrel, hag⟩ := processStep_spec f g defKey property s hagree
    obtain ⟨ih1, ih2⟩ := ih g' hag
    constructor
    · intro k
      rw [List.foldl_cons]
      rw [show (match findByKeyInList g s with
        | [] => g
        | other :: _ =>
          let f1 := addRelForest g defKey
            ⟨defKey, other.key, .RequiresTarget, property⟩
          addRelForest f1 other.key
            ⟨other.key, defKey, .RequiredByTarget, property⟩) = g' from heq]
      rw [ih1 k, hrel k]
      simp [List.append_assoc]
    · intro t
      rw [List.foldl_cons]
      rw [show (match findByKeyInList g s with
        | [] => g
        | other :: _ =>
          let f1 := addRelForest g defKey
            ⟨defKey, other.key, .RequiresTarget, property⟩
          addRelForest f1 other.key
            ⟨other.key, defKey, .RequiredByTarget, property⟩) = g' from heq]
      exact ih2 t

/-- `_processFunction` appends exactly the `eventRel` stream of the
function's used settings, leaving resolvability unchanged. -/
theorem processFunction_spec (f g : List SettingDefinition)
    (defKey : String) (props : List (String × PropValue)) (property : String)
    (hagree : ∀ t, findByKeyInList g t = [] ↔ findByKeyInList f t = []) :
    (∀ k, relationsOfKey (processFunction g defKey props property) k =
      relationsOfKey g k ++
        (eventsOfFunc props property defKey).flatMap
          (eventRel (resolvable f) k)) ∧
    (∀ t, findByKeyInList (processFunction g defKey props property) t = [] ↔
      findByKeyInList f t = []) := by
  unfold processFunction eventsOfFunc
  cases hget : assocGet props property with
  | none => exact ⟨fun k => by simp, hagree⟩
  | some pv =>
    cases pv with
    | func fn => exact processFold_spec f defKey property fn.usedSettings g hagree
    | val v => exact ⟨fun k => by simp, hagree⟩
    | str s => exact ⟨fun k => by simp, hagree⟩

/-- The fold of `_updateRelations` over the function-typed property names. -/
theorem propsFold_spec (f : List SettingDefinition) (dKey : String)
    (pv : List (String × PropValue)) (ps : List String) :
    ∀ g : List SettingDefinition,
      (∀ t, findByKeyInList g t = [] ↔ findByKeyInList f t = []) →
      (∀ k, relationsOfKey (ps.foldl (fun f p =>
          if (assocGet pv p).isSome then processFunction f dKey pv p else f)
            g) k =
        relationsOfKey g k ++
          (ps.flatMap (fun p => if (assocGet pv p).isSome then
            eventsOfFunc pv p dKey else [])).flatMap
              (eventRel (resolvable f) k)) ∧
      (∀ t, findByKeyInList (ps.foldl (fun f p =>
          if (assocGet pv p).isSome then processFunction f dKey pv p else f)
            g) t = [] ↔ findByKeyInList f t = []) := by
  induction ps with
  | nil =>
    intro g hagree
    exact ⟨fun k => by simp, hagree⟩
  | cons p rest ih =>
    intro g hagree
    by_cases hp : (assocGet pv p).isSome
    · obtain ⟨h1, h2⟩ := processFunction_spec f g dKey pv p hagree
      obtain ⟨ih1, ih2⟩ := ih (processFunction g dKey pv p) h2
      constructor
      · intro k
        rw [List.foldl_cons, if_pos hp, ih1 k, h1 k]
        simp [hp, List.append_assoc]
      · intro t
        rw [List.foldl_cons, if_pos hp]
        exact ih2 t
    · obtain ⟨ih1, ih2⟩ := ih g hagree
      constructor
      · intro k
        rw [List.foldl_cons, if_neg hp, ih1 k]
        simp [hp]
      · intro t
        rw [List.foldl_cons, if_neg hp]
        exact ih2 t

mutual

/-- `_updateRelations` on one definition appends exactly the `eventRel`
stream of its traversal, leaving resolvability unchanged. -/
theorem visit_spec (d : SettingDefinition) (f g : List SettingDefinition)
    (hagree : ∀ t, findByKeyInList g t = [] ↔ findByKeyInList f t = []) :
    (∀ k, relationsOfKey (updateRelationsVisit d g) k =
      relationsOfKey g k ++
        (eventsVisit d).flatMap (eventRel (resolvable f) k)) ∧
    (∀ t, findByKeyInList (updateRelationsVisit d g) t = [] ↔
      findByKeyInList f t = []) := by
  obtain ⟨κ, pv, cs, rs⟩ := d
  rw [updateRelationsVisit]
  obtain ⟨h1, h2⟩ :=
    propsFold_spec f κ pv (getPropertyNames .Function) g hagree
  obtain ⟨hl1, hl2⟩ := visitList_spec cs f
    ((getPropertyNames .Function).foldl (fun f p =>
      if (assocGet pv p).isSome then processFunction f κ pv p else f) g) h2
  constructor
  · intro k
    rw [hl1 k, h1 k, eventsVisit]
    simp [eventsOfProps, List.append_assoc]
  · exact hl2
termination_by sizeOf d

/-- `visit_spec` over a list of definitions. -/
theorem visitList_spec (ds : List SettingDefinition)
    (f g : List SettingDefinition)
    (hagree : ∀ t, findByKeyInList g t = [] ↔ findByKeyInList f t = []) :
    (∀ k, relationsOfKey (updateRelationsVisitList ds g) k =
      relationsOfKey g k ++
        (eventsVisitList ds).flatMap (eventRel (resolvable f) k)) ∧
    (∀ t, findByKeyInList (updateRelationsVisitList ds g) t = [] ↔
      findByKeyInList f t = []) := by
  match ds with
  | [] =>
    rw [updateRelationsVisitList]
    exact ⟨fun k => by rw [eventsVisitList]; simp, hagree⟩
  | d :: rest =>
    rw [updateRelationsVisitList]
    obtain ⟨h1, h2⟩ := visit_spec d f g hagree
    obtain ⟨hl1, hl2⟩ := visitList_spec rest f (updateRelationsVisit d g) h2
    constructor
    · intro k
      rw [hl1 k, h1 k, eventsVisitList]
      simp [List.append_assoc]
    · exact hl2
termination_by sizeOf ds

end

/-- The relation-building pass appends, to the relation list of every key,
exactly the `eventRel` stream of the whole traversal. -/
theorem updateRelations_spec (f : List SettingDefinition) (k : String) :
    relationsOfKey (updateRelations f) k =
      relationsOfKey f k ++
        (eventsVisitList f).flatMap (eventRel (resolvable f) k) := by
  rw [updateRelations]
  exact (visitList_spec f f f (fun t => Iff.rfl)).1 k

/-- `count` over a `flatMap` is the sum of the per-piece counts. -/
theorem count_flatMap (l : List (String × String × String))
    (g : String × String × String → List SettingRelation)
    (x : SettingRelation) :
    (l.flatMap g).count x = (l.map (fun a => (g a).count x)).sum := by
  induction l with
  | nil => simp
  | cons a rest ih => simp [List.count_append, ih]

/-- Summing the indicator of one value over a list counts that value. -/
theorem sum_map_ite_eq_count (l : List (String × String × String))
    (x : String × String × String) :
    (l.map (fun a => if a = x then 1 else 0)).sum = l.count x := by
  induction l with
  | nil => simp
  | cons a rest ih =>
    by_cases h : a = x
    all_goals simp [List.count_cons, h, ih]
    all_goals omega

/-- Per-reference count of the `RequiredByTarget` edge from `aKey` to
`bKey` tagged `enabled`: exactly the references `(bKey, enabled, aKey)`
contribute one, provided `aKey` resolves. -/
theorem count_eventRel_requiredBy (res : String → Bool) (aKey bKey : String)
    (e : String × String × String) (hra : res aKey = true) :
    (eventRel res aKey e).count
        ⟨aKey, bKey, .RequiredByTarget, "enabled"⟩ =
      if e = (bKey, "enabled", aKey) then 1 else 0 := by
  obtain ⟨d, p, s⟩ := e
  rw [eventRel]
  by_cases hs : res s = true
  · rw [if_pos hs, List.count_append]
    have h1 : (if aKey = d ∧ res d = true then
        ([⟨d, s, .RequiresTarget, p⟩] : List SettingRelation) else []).count
          ⟨aKey, bKey, .RequiredByTarget, "enabled"⟩ = 0 := by
      split
      · simp [List.count_singleton, SettingRelation.mk.injEq]
      · simp
    have h2 : (if aKey = s then
        ([⟨s, d, .RequiredByTarget, p⟩] : List SettingRelation) else []).count
          ⟨aKey, bKey, .RequiredByTarget, "enabled"⟩ =
        if (d, p, s) = (bKey, "enabled", aKey) then 1 else 0 := by
      by_cases heq : (d, p, s) = (bKey, "enabled", aKey)
      · obtain ⟨h1', h2', h3'⟩ := Prod.mk.injEq .. ▸ heq
        simp only [Prod.mk.injEq] at heq
        obtain ⟨rfl, rfl, rfl⟩ := heq
        simp [List.count_singleton, SettingRelation.mk.injEq]
      · by_cases has : aKey = s
        · subst has
          rw [if_pos rfl, if_neg heq]
          have : ¬ (d = bKey ∧ p = "enabled") := by
            intro ⟨hd, hp⟩
            exact heq (by simp [hd, hp])
          simp only [Prod.mk.injEq] at heq
          simp [List.count_singleton, SettingRelation.mk.injEq]
          intro hd hp
          exact (this ⟨hd, hp⟩).elim
        · rw [if_neg has, if_neg heq]
          simp
    rw [h1, h2]
    simp
  · rw [if_neg hs]
    have hne : ¬ (d, p, s) = (bKey, "enabled", aKey) := by
      intro h
      simp only [Prod.mk.injEq] at h
      obtain ⟨_, _, rfl⟩ := h
      exact hs hra
    simp [hne]

/-- Per-reference count of the `RequiresTarget` edge from `bKey` to `aKey`
tagged `enabled`: exactly the references `(bKey, enabled, aKey)` contribute
one, provided both keys resolve. -/
theorem count_eventRel_requires (res : String → Bool) (aKey bKey : String)
    (e : String × String × String) (hra : res aKey = true)
    (hrb : res bKey = true) :
    (eventRel res bKey e).count
        ⟨bKey, aKey, .RequiresTarget, "enabled"⟩ =
      if e = (bKey, "enabled", aKey) then 1 else 0 := by
  obtain ⟨d, p, s⟩ := e
  rw [eventRel]
  by_cases hs : res s = true
  · rw [if_pos hs, List.count_append]
    have h2 : (if bKey = s then
        ([⟨s, d, .RequiredByTarget, p⟩] : List SettingRelation) else []).count
          ⟨bKey, aKey, .RequiresTarget, "enabled"⟩ = 0 := by
      split
      · simp [List.count_singleton, SettingRelation.mk.injEq]
      · simp
    have h1 : (if bKey = d ∧ res d = true then
        ([⟨d, s, .RequiresTarget, p⟩] : List SettingRelation) else []).count
          ⟨bKey, aKey, .RequiresTarget, "enabled"⟩ =
        if (d, p, s) = (bKey, "enabled", aKey) then 1 else 0 := by
      by_cases heq : (d, p, s) = (bKey, "enabled", aKey)
      · simp only [Prod.mk.injEq] at heq
        obtain ⟨rfl, rfl, rfl⟩ := heq
        rw [if_pos ⟨rfl, hrb⟩]
        simp [List.count_singleton, SettingRelation.mk.injEq]
      · simp only [Prod.mk.injEq] at heq
        have hcond : ¬ ((d, p, s) = (bKey, "enabled", aKey)) := by
          intro h
          simp only [Prod.mk.injEq] at h
          exact heq h
        rw [if_neg hcond]
        by_cases hguard : bKey = d ∧ res d = true
        · rw [if_pos hguard]
          have hne1 : (⟨d, s, .RequiresTarget, p⟩ : SettingRelation) ≠
              ⟨bKey, aKey, .RequiresTarget, "enabled"⟩ := by
            intro h
            simp only [SettingRelation.mk.injEq] at h
            exact heq ⟨h.1, h.2.2.2, h.2.1⟩
          simp [List.count_cons, hne1]
        · rw [if_neg hguard]
          simp
    rw [h1, h2]
    simp
  · rw [if_neg hs]
    have hne : ¬ (d, p, s) = (bKey, "enabled", aKey) := by
      intro h
      simp only [Prod.mk.injEq] at h
      obtain ⟨_, _, rfl⟩ := h
      exact hs hra
    simp [hne]

/-- **C5**: after the relation-building pass of a freshly parsed definition
container (all relation lists empty), when the traversal processes the
reference (B, `enabled`, A) exactly once and both keys resolve, definition A
holds exactly one `RequiredByTarget` relation to B tagged `enabled` and
definition B exactly one `RequiresTarget` relation to A tagged `enabled`;
and a pass all of whose referenced keys resolve to no definition builds no
relation anywhere (the references are skipped). -/
theorem definitionContainer_relation_pairing
    (f : List SettingDefinition) (aKey bKey : String)
    (hra : resolvable f aKey = true) (hrb : resolvable f bKey = true)
    (hinit : ∀ k, relationsOfKey f k = [])
    (hcount : (eventsVisitList f).count (bKey, "enabled", aKey) = 1) :
    (relationsOfKey (updateRelations f) aKey).count
        ⟨aKey, bKey, .RequiredByTarget, "enabled"⟩ = 1 ∧
    (relationsOfKey (updateRelations f) bKey).count
        ⟨bKey, aKey, .RequiresTarget, "enabled"⟩ = 1 ∧
    (∀ g : List SettingDefinition, ∀ k,
      (∀ e ∈ eventsVisitList g, resolvable g e.2.2 = false) →
      relationsOfKey (updateRelations g) k = relationsOfKey g k) := by
  refine ⟨?_, ?_, ?_⟩
  · rw [updateRelations_spec, hinit aKey, List.nil_append, count_flatMap]
    have hmapeq : (eventsVisitList f).map
        (fun e => (eventRel (resolvable f) aKey e).count
          ⟨aKey, bKey, .RequiredByTarget, "enabled"⟩) =
        (eventsVisitList f).map
          (fun e => if e = (bKey, "enabled", aKey) then 1 else 0) :=
      List.map_congr_left
        (fun e _ => count_eventRel_requiredBy (resolvable f) aKey bKey e hra)
    rw [hmapeq, sum_map_ite_eq_count, hcount]
  · rw [updateRelations_spec, hinit bKey, List.nil_append, count_flatMap]
    have hmapeq : (eventsVisitList f).map
        (fun e => (eventRel (resolvable f) bKey e).count
          ⟨bKey, aKey, .RequiresTarget, "enabled"⟩) =
        (eventsVisitList f).map
          (fun e => if e = (bKey, "enabled", aKey) then 1 else 0) :=
      List.map_congr_left
        (fun e _ => count_eventRel_requires (resolvable f) aKey bKey e hra hrb)
    rw [hmapeq, sum_map_ite_eq_count, hcount]
  · intro g k hunres
    rw [updateRelations_spec]
    have hnil : (eventsVisitList g).flatMap (eventRel (resolvable g) k) = [] := by
      rw [List.flatMap_eq_nil_iff]
      intro e he
      obtain ⟨d, p, s⟩ := e
      have hr := hunres (d, p, s) he
      rw [eventRel]
      simp only at hr
      simp [hr]
    rw [hnil, List.append_nil]

/-- Witness for C5: the two-definition sample forest, where `B`'s `enabled`
function references `A`. -/
theorem definitionContainer_relation_pairing_witness :
    (relationsOfKey (updateRelations forestAB) "A").count
        ⟨"A", "B", .RequiredByTarget, "enabled"⟩ = 1 ∧
    (relationsOfKey (updateRelations forestAB) "B").count
        ⟨"B", "A", .RequiresTarget, "enabled"⟩ = 1 ∧
    (∀ g : List SettingDefinition, ∀ k,
      (∀ e ∈ eventsVisitList g, resolvable g e.2.2 = false) →
      relationsOfKey (updateRelations g) k = relationsOfKey g k) :=
  definitionContainer_relation_pairing forestAB "A" "B"
    (by
      rw [resolvable, show findByKeyInList forestAB "A" = [defA] from by
        simp [findByKeyInList, SettingDefinition.findByKey, forestAB, defA,
          defB]]
      rfl)
    (by
      rw [resolvable, show findByKeyInList forestAB "B" = [defB] from by
        simp [findByKeyInList, SettingDefinition.findByKey, forestAB, defA,
          defB]]
      rfl)
    (by
      intro k
      rw [relationsOfKey, show findByKeyInList forestAB k =
          (if "A" = k then [defA] else []) ++
            ((if "B" = k then [defB] else []) ++ []) from by
        simp [findByKeyInList, SettingDefinition.findByKey, forestAB, defA,
          defB]]
      split_ifs <;> rfl)
    (by
      rw [show eventsVisitList forestAB = [("B", "enabled", "A")] from by
        simp [eventsVisitList, eventsVisit, eventsOfProps, eventsOfFunc,
          getPropertyNames, propertyDefinitions, assocGet, forestAB, defA,
          defB]]
      rfl)

end Uranium
